import Mathlib

/-
Verification of the core filter-design routines of empyscripts (fdesign.py):
the grid-axis builder, the filter-coefficient solver, the goodness evaluator
and the driver-level input validation.

Numeric model.  The scoring pipeline of the goodness evaluator operates on
floating-point arrays whose relevant behaviour is the IEEE special-value
propagation (NaN, plus/minus infinity) together with exact arithmetic on
ordinary values.  We model a scalar as an exact rational extended with the
three special values, and give the arithmetic operations the numpy semantics
(NaN propagates and compares false; division of a nonzero value by zero gives
a signed infinity; infinity minus infinity and zero over zero give NaN).
The filter-coefficient solver is modelled over the real numbers, with the
external QR factorisation and triangular solve represented at their
interface: the call either succeeds with a length-n vector (the contract of
np.linalg.solve on the n-by-n triangular factor) or raises a linear-algebra
error, which the source catches.
-/

namespace Fdesign

/-- Scalar value of the evaluator: an exact rational or an IEEE special. -/
inductive NumV where
  | val (q : ℚ)
  | nan
  | inf
  | ninf
deriving DecidableEq

namespace NumV

/-- Subtraction with numpy special-value semantics. -/
def sub : NumV → NumV → NumV
  | val a, val b => val (a - b)
  | nan, _ => nan
  | _, nan => nan
  | inf, inf => nan
  | inf, _ => inf
  | ninf, ninf => nan
  | ninf, _ => ninf
  | val _, inf => ninf
  | val _, ninf => inf

/-- Division with numpy special-value semantics. -/
def div : NumV → NumV → NumV
  | nan, _ => nan
  | _, nan => nan
  | val a, val b =>
      if b = 0 then (if a = 0 then nan else if 0 < a then inf else ninf)
      else val (a / b)
  | val _, inf => val 0
  | val _, ninf => val 0
  | inf, val b => if 0 ≤ b then inf else ninf
  | ninf, val b => if 0 ≤ b then ninf else inf
  | inf, _ => nan
  | ninf, _ => nan

/-- Absolute value. -/
def abs : NumV → NumV
  | val a => val |a|
  | nan => nan
  | _ => inf

/-- Test for NaN (np.isnan). -/
def isNan : NumV → Bool
  | nan => true
  | _ => false

/-- Comparison with zero (the numpy elementwise test rhs == 0). -/
def eqZero : NumV → Bool
  | val a => decide (a = 0)
  | _ => false

/-- Finiteness test: true exactly on ordinary values. -/
def isFinite : NumV → Bool
  | val _ => true
  | _ => false

/-- Strict comparison against a rational threshold; NaN compares false. -/
def gtQ : NumV → ℚ → Bool
  | val a, e => decide (e < a)
  | inf, _ => true
  | _, _ => false

/-- Strict comparison of two scalars; NaN compares false. -/
def gtV : NumV → NumV → Bool
  | val a, val b => decide (b < a)
  | nan, _ => false
  | _, nan => false
  | inf, inf => false
  | inf, _ => true
  | val _, ninf => true
  | val _, inf => false
  | ninf, _ => false

end NumV

/-- Elementwise relative error of the evaluator: abs of (rhs - ref) / ref. -/
def relError (x y : NumV) : NumV := NumV.abs (NumV.div (NumV.sub x y) y)

/-- Reduction mode of the goodness evaluator (the cvar argument). -/
inductive Cvar where
  | amp
  | r
deriving DecidableEq

/-- Process-scoped log of the search; the claims only concern the one-time
short-range warning flag (the key warn-r of the log dict). -/
structure ScoreLog where
  warnR : Bool
deriving DecidableEq

/-- Ascending list of evaluation indices whose relative error exceeds the
tolerance: np.where(rel_error > error)[0] in the source. -/
def violIdx (error : ℚ) (approx ref : List NumV) : List ℕ :=
  (List.range (List.zipWith relError approx ref).length).filter
    (fun i => NumV.gtQ ((List.zipWith relError approx ref).getD i NumV.nan) error)

/-- Breakdown index of one check pair, as computed at lines 969 to 995 of
fdesign.py: zero when the approximation is identically zero or identically
NaN; the last index when no violation exists; otherwise skip past the fifth
violating index (minus five, clamped at zero) when more than four exist,
else back off one from the first violating index (clamped at zero).
Natural-number subtraction is exactly the clamped subtraction of the source
(np.max of 0 and the difference). -/
def pairImin (error : ℚ) (approx ref : List NumV) : ℕ :=
  if approx.all NumV.eqZero || approx.all NumV.isNan then 0
  else if violIdx error approx ref = [] then approx.length - 1
  else if 4 < (violIdx error approx ref).length then
    (violIdx error approx ref).getD 4 0 - 5
  else (violIdx error approx ref).getD 0 0 - 1

/-- Per-pair scalar score: the amplitude of the approximation at the
breakdown index in amp mode, or one over the evaluation point at the
breakdown index in range mode. -/
def pairMinVal (cvar : Cvar) (r : List ℚ) (error : ℚ) (approx ref : List NumV) : NumV :=
  match cvar with
  | Cvar.amp => NumV.abs (approx.getD (pairImin error approx ref) NumV.nan)
  | Cvar.r => NumV.div (NumV.val 1) (NumV.val (r.getD (pairImin error approx ref) 0))

/-- Update of the score log performed by one check-pair evaluation: the
one-time short-range warning is recorded only in the no-violation branch,
and only when verbosity is positive and the flag is not yet set. -/
def pairLogUpd (verb : ℕ) (log : ScoreLog) (error : ℚ) (approx ref : List NumV) : ScoreLog :=
  if approx.all NumV.eqZero || approx.all NumV.isNan then log
  else if violIdx error approx ref = [] then
    (if 0 < verb ∧ log.warnR = false then { warnR := true } else log)
  else log

/-- One step of the loop over check pairs: keep the incoming breakdown index
and score unless the new per-pair score is strictly larger (lines 1003 to
1010 of fdesign.py; NaN never wins the comparison). -/
def getMinValStep (cvar : Cvar) (r : List ℚ) (error : ℚ)
    (acc : ℕ × NumV) (p : List NumV × List NumV) : ℕ × NumV :=
  if NumV.gtV (pairMinVal cvar r error p.1 p.2) acc.2 then
    (pairImin error p.1 p.2, pairMinVal cvar r error p.1 p.2)
  else acc

/-- Breakdown index and score retained after the loop over all check pairs,
initialised from the first pair. -/
def getMinValRes (fC : List (List NumV × List NumV)) (r : List ℚ) (error : ℚ)
    (cvar : Cvar) : ℕ × NumV :=
  match fC with
  | [] => (0, NumV.nan)
  | p :: rest =>
      rest.foldl (getMinValStep cvar r error)
        (pairImin error p.1 p.2, pairMinVal cvar r error p.1 p.2)

/-- Score returned by the goodness evaluator for one candidate: the retained
score, replaced by infinity when the retained breakdown index is zero
(np.where(imin == 0, np.inf, min_val), line 1021 of fdesign.py).  Each check
pair is given by its approximated transform values and its precomputed
reference values.  The source never calls this with an empty pair list; the
empty case is given the NaN value. -/
def get_min_val (fC : List (List NumV × List NumV)) (r : List ℚ) (error : ℚ)
    (cvar : Cvar) : NumV :=
  match fC with
  | [] => NumV.nan
  | _ :: _ =>
      if (getMinValRes fC r error cvar).1 = 0 then NumV.inf
      else (getMinValRes fC r error cvar).2

/-- Kernel-type tags of the transform pairs: the closed set used by the
source (j0, j1, sine, cosine, and the joint tag j2). -/
inductive KTag where
  | j0
  | j1
  | sin
  | cos
  | j2
deriving DecidableEq

/-- Validation of the inversion-pair list performed by design after
normalising the input to a list (lines 219 to 222 of fdesign.py): only the
name of the FIRST pair is compared against the joint tag, and a match raises
ValueError with payload j2.  Indexing an empty list would raise an
IndexError in the source. -/
def designFICheck (fI : List KTag) : Except String Unit :=
  match fI with
  | [] => Except.error "IndexError"
  | f :: _ => if f = KTag.j2 then Except.error "j2" else Except.ok ()

/-- The step computed by the axis builder for a (start, stop, num) triple. -/
def ls2arStep (start stop : ℚ) (count : ℕ) : ℚ :=
  (stop - start) / ((count : ℚ) - 1)

/-- Rearrangement of (start, stop, num) into an arange-compatible triple
(lines 1081 to 1087 of fdesign.py): degenerate axes (fewer than two points,
or equal endpoints) collapse to a one-point axis with unit step; otherwise
the upper bound is nudged up by half a step so that iteration reaches the
inclusive endpoint. -/
def ls2arRange (start stop num : ℚ) : ℚ × ℚ × ℚ :=
  if num < 2 ∨ start = stop then (start, start + 1/2, 1)
  else (start, stop + (stop - start) / (num - 1) / 2, (stop - start) / (num - 1))

/-- The axis builder: a one-element input is a scalar axis, a three-element
input is a linspace-style triple, anything else raises ValueError naming the
offending parameter (lines 1064 to 1087 of fdesign.py). -/
def ls2ar (inp : List ℚ) (strinp : String) : Except String (ℚ × ℚ × ℚ) :=
  if inp.length = 1 then
    Except.ok (ls2arRange (inp.getD 0 0) (inp.getD 0 0 + 1) 1)
  else if inp.length = 3 then
    Except.ok (ls2arRange (inp.getD 0 0) (inp.getD 1 0) (inp.getD 2 0))
  else Except.error strinp

/-- Iteration of a range triple, with the numpy arange element count
(the ceiling of (stop - start) / step, clamped at zero). -/
def npArange (start stop step : ℚ) : List ℚ :=
  (List.range (⌈(stop - start) / step⌉).toNat).map (fun (k : ℕ) => start + (k : ℚ) * step)

/-- The axis-building phase of design (lines 236 to 237 of fdesign.py):
both axes are converted with the axis builder and any failure propagates
unrecovered to the caller. -/
def designAxes (spacing shift : List ℚ) :
    Except String ((ℚ × ℚ × ℚ) × (ℚ × ℚ × ℚ)) :=
  match ls2ar spacing "spacing" with
  | Except.error e => Except.error e
  | Except.ok a =>
      match ls2ar shift "shift" with
      | Except.error e => Except.error e
      | Except.ok b => Except.ok (a, b)

/-- One inversion transform pair as seen by the filter-coefficient solver:
its kernel tag together with the outcome of the external QR factorisation
and triangular solve for its linear system.  Success carries the length-n
solution vector (the contract of np.linalg.solve on the n-by-n triangular
factor); failure stands for the raised linear-algebra error that the source
catches at lines 1053 to 1057 of fdesign.py. -/
structure InvPair (n : ℕ) where
  name : KTag
  solveRes : Option (Fin n → ℝ)

/-- The Filter entity built by the solver: sample points, common ratio, and
one coefficient array per inversion pair. -/
structure DFilter where
  base : List ℝ
  factor : ℝ
  coeff : List (KTag × List ℝ)

/-- Rounding to fifteen decimal places, as np.around with decimals 15.
Ties are irrelevant to the statements proved here since both sides of the
factor claims go through this same function. -/
noncomputable def round15 (x : ℝ) : ℝ := ((round (x * 10 ^ 15) : ℤ) : ℝ) / 10 ^ 15

/-- The base of the filter: exp of (spacing times (i minus n div 2) plus
shift) for i from 0 to n - 1 (line 1028 of fdesign.py; the division n div 2
is the integer floor division of the source). -/
noncomputable def filterBase (n : ℕ) (spacing shift : ℝ) : List ℝ :=
  (List.range n).map
    (fun (i : ℕ) => Real.exp (spacing * ((i : ℝ) - ((n / 2 : ℕ) : ℝ)) + shift))

/-- The factor of the filter: the average of the elementwise quotients of
the base without its first point by the base without its last point,
rounded to fifteen decimals (line 1041 of fdesign.py). -/
noncomputable def filterFactor (base : List ℝ) : ℝ :=
  round15 ((List.zipWith (fun a b => a / b) base.tail base).sum
    / ((List.zipWith (fun a b => a / b) base.tail base).length : ℝ))

/-- The filter-coefficient solver (lines 1024 to 1061 of fdesign.py): build
the base and the factor, then for every inversion pair store the solved
coefficient vector, or an all-zero vector of the size of the base when the
factorisation or the solve raised a linear-algebra error.  The function is
total: no failure propagates to the caller. -/
noncomputable def calculate_filter (n : ℕ) (spacing shift : ℝ)
    (fI : List (InvPair n)) : DFilter :=
  { base := filterBase n spacing shift
    factor := filterFactor (filterBase n spacing shift)
    coeff := fI.map (fun f =>
      (f.name, match f.solveRes with
        | some J => List.ofFn J
        | none => List.replicate (filterBase n spacing shift).length 0)) }

/-! Helper lemmas shared by the claim theorems. -/

theorem list_range_map_getD {α : Type _} (f : ℕ → α) (n k : ℕ) (d : α) (hk : k < n) :
    ((List.range n).map f).getD k d = f k := by
  rw [List.getD_eq_getElem?_getD, List.getElem?_map, List.getElem?_range hk]
  rfl

theorem list_tail_getD {α : Type _} (l : List α) (i : ℕ) (d : α) :
    l.tail.getD i d = l.getD (i + 1) d := by
  cases l with
  | nil => rfl
  | cons a t => rfl

/-! Claim theorems. -/

/-- Claim C1 (code bug): the claim states that design rejects the joint tag
j2 at ANY position of the inversion-pair list, and the in-source error
message states the same; but the source only inspects the name of the first
pair, so a list with j2 in second position passes the validation and the
grid search runs.  A singleton j2 list is rejected as documented. -/
theorem design_j2_second_position_no_error :
    KTag.j2 ∈ [KTag.j0, KTag.j2]
    ∧ designFICheck [KTag.j0, KTag.j2] = Except.ok ()
    ∧ designFICheck [KTag.j2] = Except.error "j2" :=
  ⟨by decide, by with_unfolding_all rfl, by with_unfolding_all rfl⟩

/-- Claim C2 (amended): with a single check pair, an approximation that is
identically zero or identically NaN forces breakdown index 0 and score
infinity in every reduction mode; and in general the evaluator returns
infinity whenever the retained breakdown index is 0. -/
theorem get_min_val_zero_nan_inf (approx ref : List NumV) (r : List ℚ) (error : ℚ)
    (cvar : Cvar) (fC : List (List NumV × List NumV)) (hfc : fC ≠ []) :
    ((approx.all NumV.eqZero || approx.all NumV.isNan) = true →
        pairImin error approx ref = 0
        ∧ get_min_val [(approx, ref)] r error cvar = NumV.inf)
    ∧ ((getMinValRes fC r error cvar).1 = 0 → get_min_val fC r error cvar = NumV.inf) := by
  constructor
  · intro hz
    have h0 : pairImin error approx ref = 0 := by simp [pairImin, hz]
    refine ⟨h0, ?_⟩
    have hres : getMinValRes [(approx, ref)] r error cvar
        = (pairImin error approx ref, pairMinVal cvar r error approx ref) := rfl
    simp [get_min_val, hres, h0]
  · intro h0
    cases fC with
    | nil => cases hfc rfl
    | cons p rest => simp [get_min_val, h0]

/-- Witness for C2 at a concrete identically-zero approximation. -/
theorem get_min_val_zero_nan_inf_witness :
    pairImin (1/100) [NumV.val 0, NumV.val 0] [NumV.val 1, NumV.val 1] = 0
    ∧ get_min_val [([NumV.val 0, NumV.val 0], [NumV.val 1, NumV.val 1])] [1, 2] (1/100)
        Cvar.amp = NumV.inf :=
  (get_min_val_zero_nan_inf [NumV.val 0, NumV.val 0] [NumV.val 1, NumV.val 1] [1, 2] (1/100)
    Cvar.amp [([NumV.val 0], [NumV.val 1])] (by decide)).1 (by with_unfolding_all rfl)

/-- Claim C2 counterexample: an approximation that is non-finite at every
evaluation point (NaN, NaN, infinity) but neither identically zero nor
identically NaN gets breakdown index 1 and the finite score one half in
range mode, not infinity. -/
theorem get_min_val_nonfinite_finite_score :
    ([NumV.nan, NumV.nan, NumV.inf].all (fun x => !NumV.isFinite x)) = true
    ∧ get_min_val [([NumV.nan, NumV.nan, NumV.inf], [NumV.val 1, NumV.val 1, NumV.val 1])]
        [1, 2, 4] (1/100) Cvar.r = NumV.val (1/2)
    ∧ NumV.val (1/2) ≠ NumV.inf :=
  ⟨by decide, by with_unfolding_all rfl, by decide⟩

/-- Claim C3 (amended): when the approximation is not identically zero or
NaN, the breakdown index is max 0 (V4 - 5) when more than four indices
violate the tolerance (V4 the fifth violating index), and max 0 (V0 - 1)
otherwise; with no violation it is the last index, and the one-time
short-range warning is recorded in the log exactly when verbosity is
positive (at verbosity zero the log is left untouched). -/
theorem pair_imin_breakdown (approx ref : List NumV) (error : ℚ) (verb : ℕ) (log : ScoreLog)
    (hz : (approx.all NumV.eqZero || approx.all NumV.isNan) = false) :
    (4 < (violIdx error approx ref).length →
        (pairImin error approx ref : ℤ)
          = max 0 (((violIdx error approx ref).getD 4 0 : ℤ) - 5))
    ∧ (violIdx error approx ref ≠ [] → (violIdx error approx ref).length ≤ 4 →
        (pairImin error approx ref : ℤ)
          = max 0 (((violIdx error approx ref).getD 0 0 : ℤ) - 1))
    ∧ (violIdx error approx ref = [] →
        pairImin error approx ref = approx.length - 1
        ∧ (0 < verb → log.warnR = false →
            (pairLogUpd verb log error approx ref).warnR = true)
        ∧ (verb = 0 → pairLogUpd verb log error approx ref = log)) := by
  refine ⟨?_, ?_, ?_⟩
  · intro h4
    have hne : violIdx error approx ref ≠ [] := by
      intro he
      rw [he] at h4
      simp at h4
    simp only [pairImin, hz, Bool.false_eq_true, if_false, if_neg hne, if_pos h4]
    omega
  · intro hne hle
    have h4 : ¬ 4 < (violIdx error approx ref).length := by omega
    simp only [pairImin, hz, Bool.false_eq_true, if_false, if_neg hne, if_neg h4]
    omega
  · intro hv
    refine ⟨?_, ?_, ?_⟩
    · simp [pairImin, hz, hv]
    · intro hverb hwarn
      simp [pairLogUpd, hz, hv, hverb, hwarn]
    · intro h0
      subst h0
      simp [pairLogUpd, hz, hv]

/-- Witness for C3 at a concrete all-violating pair and a concrete
no-violation pair with positive verbosity. -/
theorem pair_imin_breakdown_witness :
    (pairImin (1/100) [NumV.val 2, NumV.val 2, NumV.val 2]
        [NumV.val 1, NumV.val 1, NumV.val 1] : ℤ)
      = max 0 (((violIdx (1/100) [NumV.val 2, NumV.val 2, NumV.val 2]
          [NumV.val 1, NumV.val 1, NumV.val 1]).getD 0 0 : ℤ) - 1)
    ∧ pairImin (1/100) [NumV.val 1] [NumV.val 1] = 0
    ∧ (pairLogUpd 1 ⟨false⟩ (1/100) [NumV.val 1] [NumV.val 1]).warnR = true := by
  have hv : violIdx (1/100) [NumV.val 2, NumV.val 2, NumV.val 2]
      [NumV.val 1, NumV.val 1, NumV.val 1] = [0, 1, 2] := by with_unfolding_all rfl
  have hv2 : violIdx (1/100) [NumV.val 1] [NumV.val 1] = [] := by with_unfolding_all rfl
  have h1 := pair_imin_breakdown [NumV.val 2, NumV.val 2, NumV.val 2]
      [NumV.val 1, NumV.val 1, NumV.val 1] (1/100) 1 ⟨false⟩ (by with_unfolding_all rfl)
  have h2 := pair_imin_breakdown [NumV.val 1] [NumV.val 1] (1/100) 1 ⟨false⟩
      (by with_unfolding_all rfl)
  have h2e := h2.2.2 hv2
  exact ⟨h1.2.1 (by rw [hv]; decide) (by rw [hv]; decide), h2e.1, h2e.2.1 (by decide) rfl⟩

/-- Claim C3 counterexample: at verbosity zero, a no-violation evaluation
leaves the short-range warning unrecorded, contradicting the unconditional
claim that the warning is recorded in the log. -/
theorem pair_log_verb0_no_warning :
    violIdx (1/100) [NumV.val 1] [NumV.val 1] = []
    ∧ ([NumV.val 1].all NumV.eqZero || [NumV.val 1].all NumV.isNan) = false
    ∧ pairLogUpd 0 ⟨false⟩ (1/100) [NumV.val 1] [NumV.val 1] = ⟨false⟩ :=
  ⟨by with_unfolding_all rfl, by with_unfolding_all rfl, by with_unfolding_all rfl⟩

/-- Claim C4 (amended): with two check pairs whose per-pair scalar scores
are ordinary values s1 < s2, the final score is s2 provided the breakdown
index of the winning second pair is nonzero (otherwise the infinity
substitution of line 1021 applies instead). -/
theorem get_min_val_two_pairs_max (a1 f1 a2 f2 : List NumV) (r : List ℚ) (error : ℚ)
    (cvar : Cvar) (s1 s2 : ℚ)
    (h1 : pairMinVal cvar r error a1 f1 = NumV.val s1)
    (h2 : pairMinVal cvar r error a2 f2 = NumV.val s2)
    (hlt : s1 < s2) (hi : pairImin error a2 f2 ≠ 0) :
    get_min_val [(a1, f1), (a2, f2)] r error cvar = NumV.val s2 := by
  have hgt : NumV.gtV (pairMinVal cvar r error a2 f2) (pairMinVal cvar r error a1 f1)
      = true := by
    rw [h1, h2]
    simp [NumV.gtV, hlt]
  have hres : getMinValRes [(a1, f1), (a2, f2)] r error cvar
      = (pairImin error a2 f2, pairMinVal cvar r error a2 f2) := by
    simp [getMinValRes, getMinValStep, hgt]
  simp [get_min_val, hres, hi, h2]

/-- Witness for C4 at two concrete pairs with scores one half and one. -/
theorem get_min_val_two_pairs_max_witness :
    get_min_val [([NumV.val (1/2)], [NumV.val (1/2)]),
        ([NumV.val 1, NumV.val 1, NumV.val 3], [NumV.val 1, NumV.val 1, NumV.val 1])]
      [1, 2, 4] (1/100) Cvar.amp = NumV.val 1 := by
  have him : pairImin (1/100) [NumV.val 1, NumV.val 1, NumV.val 3]
      [NumV.val 1, NumV.val 1, NumV.val 1] = 1 := by with_unfolding_all rfl
  exact get_min_val_two_pairs_max [NumV.val (1/2)] [NumV.val (1/2)]
    [NumV.val 1, NumV.val 1, NumV.val 3] [NumV.val 1, NumV.val 1, NumV.val 1]
    [1, 2, 4] (1/100) Cvar.amp (1/2) 1
    (by with_unfolding_all rfl) (by with_unfolding_all rfl)
    (by norm_num) (by rw [him]; decide)

/-- Claim C4 counterexample: two check pairs with per-pair scalar scores
one half and two; the winning second pair has breakdown index 0, so the
evaluator returns infinity and not the larger per-pair score two. -/
theorem get_min_val_max_zero_idx_inf :
    pairMinVal Cvar.amp [1, 2, 4] (1/100) [NumV.val 1, NumV.val 1, NumV.val (1/2)]
        [NumV.val 1, NumV.val 1, NumV.val (1/2)] = NumV.val (1/2)
    ∧ pairMinVal Cvar.amp [1, 2, 4] (1/100) [NumV.val 2, NumV.val 9, NumV.val 9]
        [NumV.val 1, NumV.val 1, NumV.val 1] = NumV.val 2
    ∧ (1 : ℚ)/2 < 2
    ∧ get_min_val
        [([NumV.val 1, NumV.val 1, NumV.val (1/2)], [NumV.val 1, NumV.val 1, NumV.val (1/2)]),
          ([NumV.val 2, NumV.val 9, NumV.val 9], [NumV.val 1, NumV.val 1, NumV.val 1])]
        [1, 2, 4] (1/100) Cvar.amp = NumV.inf
    ∧ NumV.inf ≠ NumV.val 2 :=
  ⟨by with_unfolding_all rfl, by with_unfolding_all rfl, by norm_num,
   by with_unfolding_all rfl, by decide⟩

/-- Claim C10: a check pair with breakdown index 0 (total failure) can be
masked by another check pair with a strictly larger per-pair score and a
nonzero breakdown index: the returned score is then the finite score of the
second pair, not infinity. -/
theorem get_min_val_pair_failure_masked :
    pairImin (1/100) [NumV.val 0, NumV.val 0, NumV.val 0]
        [NumV.val 1, NumV.val 1, NumV.val 1] = 0
    ∧ pairImin (1/100) [NumV.val 1, NumV.val 1, NumV.val 2]
        [NumV.val 1, NumV.val 1, NumV.val 1] = 1
    ∧ get_min_val
        [([NumV.val 0, NumV.val 0, NumV.val 0], [NumV.val 1, NumV.val 1, NumV.val 1]),
          ([NumV.val 1, NumV.val 1, NumV.val 2], [NumV.val 1, NumV.val 1, NumV.val 1])]
        [1, 2, 4] (1/100) Cvar.amp = NumV.val 1
    ∧ NumV.val 1 ≠ NumV.inf :=
  ⟨by with_unfolding_all rfl, by with_unfolding_all rfl, by with_unfolding_all rfl, by decide⟩

/-- Claim C9: an axis input with neither one nor three elements makes the
axis builder fail with ValueError naming the offending parameter, and the
failure propagates unrecovered through the axis phase of design, whichever
of the two axes is malformed. -/
theorem ls2ar_bad_size_error (inp : List ℚ) (s : String) (sp : List ℚ) (x : ℚ)
    (h1 : inp.length ≠ 1) (h3 : inp.length ≠ 3) :
    ls2ar inp s = Except.error s
    ∧ designAxes inp sp = Except.error "spacing"
    ∧ designAxes [x] inp = Except.error "shift" := by
  have he : ls2ar inp "spacing" = Except.error "spacing" := by simp [ls2ar, h1, h3]
  have he2 : ls2ar inp "shift" = Except.error "shift" := by simp [ls2ar, h1, h3]
  refine ⟨by simp [ls2ar, h1, h3], ?_, ?_⟩
  · simp [designAxes, he]
  · have hv : ls2ar [x] "spacing"
        = Except.ok (ls2arRange ([x].getD 0 0) ([x].getD 0 0 + 1) 1) := by
      simp [ls2ar]
    simp [designAxes, hv, he2]

theorem npArange_one (a b step : ℚ) (h : (⌈(b - a) / step⌉ : ℤ) = 1) :
    npArange a b step = [a] := by
  rw [npArange, h]
  simp [List.range_succ]

theorem ceil_nudged_half (a : ℚ) : (⌈(a + 1/2 - a) / 1⌉ : ℤ) = 1 := by
  have h : (a + 1/2 - a) / (1 : ℚ) = 1/2 := by ring
  rw [h]
  refine Int.ceil_eq_iff.mpr ⟨?_, ?_⟩ <;> norm_num

/-- Claim C8: a scalar axis input yields a one-point range iterating to the
scalar itself; a (start, stop, count) triple with count at least two and
distinct endpoints yields (start, stop plus half a step, step) with step
equal to (stop minus start) over (count minus 1), whose iteration has
exactly count elements, the k-th being start plus k steps, the first being
start and the last being stop; a triple with count below two or equal
endpoints collapses to the one-point axis. -/
theorem ls2ar_axis_spec (x start stop : ℚ) (count : ℕ) (s : String) :
    (ls2ar [x] s = Except.ok (x, x + 1/2, 1) ∧ npArange x (x + 1/2) 1 = [x])
    ∧ (2 ≤ count → start ≠ stop →
        ls2ar [start, stop, (count : ℚ)] s
            = Except.ok (start, stop + ls2arStep start stop count / 2,
                ls2arStep start stop count)
        ∧ (npArange start (stop + ls2arStep start stop count / 2)
              (ls2arStep start stop count)).length = count
        ∧ (∀ k : ℕ, k < count →
            (npArange start (stop + ls2arStep start stop count / 2)
                (ls2arStep start stop count)).getD k 0
              = start + (k : ℚ) * ls2arStep start stop count)
        ∧ (npArange start (stop + ls2arStep start stop count / 2)
              (ls2arStep start stop count)).getD 0 0 = start
        ∧ (npArange start (stop + ls2arStep start stop count / 2)
              (ls2arStep start stop count)).getD (count - 1) 0 = stop)
    ∧ ((count < 2 ∨ start = stop) →
        ls2ar [start, stop, (count : ℚ)] s = Except.ok (start, start + 1/2, 1)
        ∧ npArange start (start + 1/2) 1 = [start]) := by
  refine ⟨⟨?_, ?_⟩, ?_, ?_⟩
  · have h1 : ls2ar [x] s = Except.ok (ls2arRange x (x + 1) 1) := by simp [ls2ar]
    rw [h1]
    simp only [ls2arRange]
    rw [if_pos (Or.inl (by norm_num : (1 : ℚ) < 2))]
  · exact npArange_one x (x + 1/2) 1 (ceil_nudged_half x)
  · intro hc hne
    have h2q : (2 : ℚ) ≤ (count : ℚ) := by exact_mod_cast hc
    have hc1 : ((count : ℚ) - 1) ≠ 0 := by linarith
    have hso : stop - start ≠ 0 := sub_ne_zero.mpr (Ne.symm hne)
    have hdne : ls2arStep start stop count ≠ 0 := div_ne_zero hso hc1
    have hkey : (stop + ls2arStep start stop count / 2 - start) / ls2arStep start stop count
        = (count : ℚ) - 1/2 := by
      rw [ls2arStep]
      field_simp
      ring
    have hceil : (⌈(stop + ls2arStep start stop count / 2 - start)
        / ls2arStep start stop count⌉ : ℤ) = (count : ℤ) := by
      rw [hkey]
      refine Int.ceil_eq_iff.mpr ⟨?_, ?_⟩
      · push_cast
        linarith
      · push_cast
        linarith
    have hlen : (npArange start (stop + ls2arStep start stop count / 2)
        (ls2arStep start stop count)).length = count := by
      rw [npArange, List.length_map, List.length_range, hceil]
      simp
    have hget : ∀ k : ℕ, k < count →
        (npArange start (stop + ls2arStep start stop count / 2)
            (ls2arStep start stop count)).getD k 0
          = start + (k : ℚ) * ls2arStep start stop count := by
      intro k hk
      rw [npArange]
      refine list_range_map_getD _ _ k 0 ?_
      rw [hceil]
      simpa using hk
    have hnot : ¬ ((count : ℚ) < 2 ∨ start = stop) := by
      rintro (h | h)
      · linarith
      · exact hne h
    refine ⟨?_, hlen, hget, ?_, ?_⟩
    · have hl : ls2ar [start, stop, (count : ℚ)] s
          = Except.ok (ls2arRange start stop (count : ℚ)) := by simp [ls2ar]
      rw [hl]
      simp only [ls2arRange]
      rw [if_neg hnot]
      rfl
    · rw [hget 0 (by omega)]
      simp
    · rw [hget (count - 1) (by omega)]
      have hcast : ((count - 1 : ℕ) : ℚ) = (count : ℚ) - 1 := by
        rw [Nat.cast_sub (by omega)]
        norm_num
      rw [hcast, ls2arStep, mul_comm, div_mul_cancel₀ _ hc1]
      ring
  · intro hcs
    have hcond : ((count : ℚ) < 2 ∨ start = stop) := by
      rcases hcs with h | h
      · left
        exact_mod_cast h
      · right
        exact h
    refine ⟨?_, npArange_one start (start + 1/2) 1 (ceil_nudged_half start)⟩
    have hl : ls2ar [start, stop, (count : ℚ)] s
        = Except.ok (ls2arRange start stop (count : ℚ)) := by simp [ls2ar]
    rw [hl]
    simp only [ls2arRange]
    rw [if_pos hcond]

/-- Witness for C8: the scalar axis at five, the triple one-to-three in
three points, and the collapsed one-point triple. -/
theorem ls2ar_axis_spec_witness :
    (ls2ar [5] "spacing" = Except.ok (5, 5 + 1/2, 1) ∧ npArange 5 (5 + 1/2) 1 = [5])
    ∧ (npArange 1 (3 + ls2arStep 1 3 3 / 2) (ls2arStep 1 3 3)).length = 3
    ∧ (npArange 1 (3 + ls2arStep 1 3 3 / 2) (ls2arStep 1 3 3)).getD (3 - 1) 0 = 3
    ∧ ls2ar [1, 3, (1 : ℕ)] "shift" = Except.ok (1, 1 + 1/2, 1) := by
  have h2 := (ls2ar_axis_spec 0 1 3 3 "spacing").2.1 (by decide) (by norm_num)
  refine ⟨(ls2ar_axis_spec 5 0 0 0 "spacing").1, ?_, ?_, ?_⟩
  · exact h2.2.1
  · exact h2.2.2.2.2
  · exact ((ls2ar_axis_spec 0 1 3 1 "shift").2.2 (Or.inl (by decide))).1

/-- Witness for C9 at a concrete two-element axis input. -/
theorem ls2ar_bad_size_error_witness :
    ls2ar [1, 2] "foo" = Except.error "foo"
    ∧ designAxes [1, 2] [0] = Except.error "spacing"
    ∧ designAxes [5] [1, 2] = Except.error "shift" :=
  ls2ar_bad_size_error [1, 2] "foo" [0] 5 (by decide) (by decide)

theorem zipWith_sum_getD (g : ℝ → ℝ → ℝ) (xs : List ℝ) :
    ∀ ys : List ℝ, (List.zipWith g xs ys).sum
      = ∑ i ∈ Finset.range (min xs.length ys.length), g (xs.getD i 0) (ys.getD i 0) := by
  induction xs with
  | nil => intro ys; simp
  | cons a xt ih =>
    intro ys
    cases ys with
    | nil => simp
    | cons b yt =>
      rw [List.zipWith_cons_cons, List.sum_cons, ih yt, List.length_cons, List.length_cons,
        Nat.succ_min_succ, Finset.sum_range_succ']
      simp only [List.getD_cons_succ, List.getD_cons_zero]
      ring

theorem filterBase_length (n : ℕ) (sp sh : ℝ) : (filterBase n sp sh).length = n := by
  simp [filterBase]

theorem filterBase_getD (n : ℕ) (sp sh : ℝ) (i : ℕ) (hi : i < n) :
    (filterBase n sp sh).getD i 0
      = Real.exp (sp * ((i : ℝ) - ((n / 2 : ℕ) : ℝ)) + sh) :=
  list_range_map_getD _ n i 0 hi

/-- Claim C5: the base of the built filter is exp of (spacing times
(i minus the integer half of n) plus shift) at every index i below n, and
its factor is the mean of the consecutive base ratios rounded to fifteen
decimals; since every consecutive ratio of this base equals exp spacing,
the factor also equals exp spacing rounded to fifteen decimals. -/
theorem calculate_filter_base_factor (n : ℕ) (spacing shift : ℝ)
    (fI : List (InvPair n)) (i : ℕ) (hi : i < n) (hn : 2 ≤ n) :
    (calculate_filter n spacing shift fI).base.getD i 0
        = Real.exp (spacing * ((i : ℝ) - ((n / 2 : ℕ) : ℝ)) + shift)
    ∧ (calculate_filter n spacing shift fI).factor
        = round15 ((∑ j ∈ Finset.range (n - 1),
            (calculate_filter n spacing shift fI).base.getD (j + 1) 0
              / (calculate_filter n spacing shift fI).base.getD j 0) / ((n - 1 : ℕ) : ℝ))
    ∧ (calculate_filter n spacing shift fI).factor = round15 (Real.exp spacing) := by
  have hlen := filterBase_length n spacing shift
  have htail : (filterBase n spacing shift).tail.length = n - 1 := by
    rw [List.length_tail, hlen]
  have hzip : (List.zipWith (fun a b => a / b) (filterBase n spacing shift).tail
        (filterBase n spacing shift)).sum
      = ∑ j ∈ Finset.range (n - 1),
          (filterBase n spacing shift).getD (j + 1) 0
            / (filterBase n spacing shift).getD j 0 := by
    rw [zipWith_sum_getD, htail, hlen, min_eq_left (Nat.sub_le n 1)]
    exact Finset.sum_congr rfl (fun j hj => by rw [list_tail_getD])
  have hziplen : (List.zipWith (fun a b => a / b) (filterBase n spacing shift).tail
        (filterBase n spacing shift)).length = n - 1 := by
    rw [List.length_zipWith, htail, hlen, min_eq_left (Nat.sub_le n 1)]
  have hfac : (calculate_filter n spacing shift fI).factor
      = round15 ((∑ j ∈ Finset.range (n - 1),
          (filterBase n spacing shift).getD (j + 1) 0
            / (filterBase n spacing shift).getD j 0) / ((n - 1 : ℕ) : ℝ)) := by
    show filterFactor (filterBase n spacing shift) = _
    rw [filterFactor, hzip, hziplen]
  have hconst : ∀ j ∈ Finset.range (n - 1),
      (filterBase n spacing shift).getD (j + 1) 0 / (filterBase n spacing shift).getD j 0
        = Real.exp spacing := by
    intro j hj
    have hj' : j < n - 1 := Finset.mem_range.mp hj
    rw [filterBase_getD n spacing shift (j + 1) (by omega),
      filterBase_getD n spacing shift j (by omega), ← Real.exp_sub]
    congr 1
    push_cast
    ring
  refine ⟨filterBase_getD n spacing shift i hi, hfac, ?_⟩
  rw [hfac, Finset.sum_congr rfl hconst, Finset.sum_const, Finset.card_range, nsmul_eq_mul]
  have hne : ((n - 1 : ℕ) : ℝ) ≠ 0 := Nat.cast_ne_zero.mpr (by omega)
  rw [mul_comm, mul_div_assoc, div_self hne, mul_one]

/-- Witness for C5 at filter length two, spacing one, shift zero, index
one. -/
theorem calculate_filter_base_factor_witness :
    (calculate_filter 2 1 0 ([] : List (InvPair 2))).base.getD 1 0
        = Real.exp (1 * (((1 : ℕ) : ℝ) - ((2 / 2 : ℕ) : ℝ)) + 0)
    ∧ (calculate_filter 2 1 0 ([] : List (InvPair 2))).factor
        = round15 ((∑ j ∈ Finset.range (2 - 1),
            (calculate_filter 2 1 0 ([] : List (InvPair 2))).base.getD (j + 1) 0
              / (calculate_filter 2 1 0 ([] : List (InvPair 2))).base.getD j 0)
            / ((2 - 1 : ℕ) : ℝ))
    ∧ (calculate_filter 2 1 0 ([] : List (InvPair 2))).factor = round15 (Real.exp 1) :=
  calculate_filter_base_factor 2 1 0 [] 1 (by decide) (by decide)

/-- Claim C6: for positive filter length and positive spacing, every
coefficient array of the built filter has length exactly n (both the
successful-solve arrays and the zero fallback arrays), and the base is a
strictly increasing list of strictly positive values of length n. -/
theorem calculate_filter_invariants (n : ℕ) (spacing shift : ℝ) (fI : List (InvPair n))
    (hn : 0 < n) (hs : 0 < spacing) :
    (∀ c ∈ (calculate_filter n spacing shift fI).coeff, c.2.length = n)
    ∧ List.Pairwise (· < ·) (calculate_filter n spacing shift fI).base
    ∧ (∀ x ∈ (calculate_filter n spacing shift fI).base, 0 < x)
    ∧ (calculate_filter n spacing shift fI).base.length = n := by
  refine ⟨?_, ?_, ?_, filterBase_length n spacing shift⟩
  · intro c hc
    have hc' : c ∈ fI.map (fun f =>
        (f.name, match f.solveRes with
          | some J => List.ofFn J
          | none => List.replicate (filterBase n spacing shift).length 0)) := hc
    obtain ⟨f, hf, rfl⟩ := List.mem_map.mp hc'
    cases h : f.solveRes with
    | some J => simp [h]
    | none => simp [h, filterBase_length]
  · show List.Pairwise (· < ·) (filterBase n spacing shift)
    rw [filterBase, List.pairwise_map]
    refine List.Pairwise.imp ?_ (List.pairwise_lt_range n)
    intro a b hab
    exact Real.exp_lt_exp.mpr
      (add_lt_add_right (mul_lt_mul_of_pos_left
        (sub_lt_sub_right (Nat.cast_lt.mpr hab) _) hs) _)
  · intro x hx
    have hx' : x ∈ filterBase n spacing shift := hx
    rw [filterBase] at hx'
    obtain ⟨a, ha, rfl⟩ := List.mem_map.mp hx'
    exact Real.exp_pos _

/-- Witness for C6 at filter length one, spacing one, shift zero. -/
theorem calculate_filter_invariants_witness :
    (∀ c ∈ (calculate_filter 1 1 0 ([] : List (InvPair 1))).coeff, c.2.length = 1)
    ∧ List.Pairwise (· < ·) (calculate_filter 1 1 0 ([] : List (InvPair 1))).base
    ∧ (∀ x ∈ (calculate_filter 1 1 0 ([] : List (InvPair 1))).base, 0 < x)
    ∧ (calculate_filter 1 1 0 ([] : List (InvPair 1))).base.length = 1 :=
  calculate_filter_invariants 1 1 0 [] (by decide) zero_lt_one

/-- Claim C7: an inversion pair whose QR factorisation or triangular solve
raised a linear-algebra error receives the all-zero coefficient vector of
length n, the solver still returns a filter with one coefficient entry per
pair, and no exception propagates (the solver is a total function). -/
theorem calculate_filter_qr_fail_zeros (n : ℕ) (spacing shift : ℝ)
    (fI : List (InvPair n)) (i : ℕ) (hi : i < fI.length)
    (hres : (fI.get ⟨i, hi⟩).solveRes = none) :
    (calculate_filter n spacing shift fI).coeff.getD i (KTag.j0, [])
        = ((fI.get ⟨i, hi⟩).name, List.replicate n (0 : ℝ))
    ∧ (calculate_filter n spacing shift fI).coeff.length = fI.length := by
  constructor
  · have hmap : (calculate_filter n spacing shift fI).coeff
        = fI.map (fun f =>
            (f.name, match f.solveRes with
              | some J => List.ofFn J
              | none => List.replicate (filterBase n spacing shift).length 0)) := rfl
    rw [hmap, List.getD_eq_getElem?_getD, List.getElem?_map, List.getElem?_eq_getElem hi]
    have hres2 : fI[i].solveRes = none := hres
    simp only [Option.map_some', Option.getD_some, hres2]
    simp [filterBase_length]
  · exact List.length_map _ _

/-- Witness for C7 at a singleton inversion-pair list with a failed
solve. -/
theorem calculate_filter_qr_fail_zeros_witness :
    (calculate_filter 2 1 0 [(⟨KTag.j0, none⟩ : InvPair 2)]).coeff.getD 0 (KTag.j0, [])
        = (KTag.j0, List.replicate 2 (0 : ℝ))
    ∧ (calculate_filter 2 1 0 [(⟨KTag.j0, none⟩ : InvPair 2)]).coeff.length = 1 :=
  calculate_filter_qr_fail_zeros 2 1 0 [⟨KTag.j0, none⟩] 0 (by decide) rfl

end Fdesign
